import Mathlib

/-!
Verification of the FOFRA 2018 fusion interface (src/C++/fofra2018.h).

The C++ source is a pure abstract interface: it declares the data types
(ReturnCode, ReturnStatus, Candidate, ScoreSet, CandidateList, Template) and
the pure virtual operations of ScoreFuserInterface and TemplateFuserInterface,
but contains no implementation.  The data types below are embedded directly
from the source.  The operations (fuseVerificationScores, fuseCandidateLists,
createGallery, search, and the initialization state machine) are modelled from
the specification, as noted in each doc comment.  IEEE-754 double values are
modelled as rationals.
-/

namespace FOFRA

/-- Embedding of enum class ReturnCode (fofra2018.h lines 27-53), in the order
declared in the source. -/
inductive ReturnCode
  | Success
  | ConfigError
  | ParseError
  | TemplateCreationError
  | VerifTemplateError
  | NumDataError
  | TemplateFormatError
  | InputLocationError
  | MemoryError
  | NotImplemented
  | NonCongruentVectors
  | VendorError
deriving DecidableEq, Repr

/-- Embedding of struct ReturnStatus (lines 103-126).  The C++ default
constructor is written ReturnStatus() {} with no member initializer, so the
enum field code is left default-initialized, holding an indeterminate value;
the embedding tracks initialization explicitly, modelling the code field as
Option ReturnCode where none is the indeterminate (uninitialized) state. -/
structure ReturnStatus where
  code : Option ReturnCode
  info : String
deriving DecidableEq

/-- Model of the C++ default constructor ReturnStatus() {} : the code field is
uninitialized (none), the std::string field is default-constructed empty. -/
def ReturnStatus.mkDefault : ReturnStatus := ⟨none, ""⟩

/-- Model of the two-argument constructor ReturnStatus(code, info), which does
initialize the code field. -/
def ReturnStatus.mkWith (c : ReturnCode) (i : String) : ReturnStatus := ⟨some c, i⟩

/-- Exclusive bound of the C++ uint32_t type of Candidate::identity. -/
def uint32Bound : Nat := 2 ^ 32

/-- Embedding of struct Candidate (lines 139-157): an identity hypothesis
(uint32_t, embedded as Nat) and a similarity score (double, embedded as ℚ). -/
structure Candidate where
  identity : Nat
  score : ℚ
deriving DecidableEq, Repr

/-- Model of the C++ default constructor Candidate(), which member-initializes
identity to 0 and score to 0.0 (lines 146-149). -/
def Candidate.mkDefault : Candidate := ⟨0, 0⟩

/-- Embedding of using ScoreSet = std::vector of double (line 133). -/
abbrev ScoreSet := List ℚ

/-- Embedding of using CandidateList = std::vector of Candidate (line 164). -/
abbrev CandidateList := List Candidate

/-- Embedding of using Template = std::vector of double (line 170). -/
abbrev Template := List ℚ

/-- Modelled from the spec: the source declares fuseVerificationScores only as
a pure virtual method (lines 227-230).  Per spec section 4.1, an input of
size < 2 fails with the dedicated insufficient-input code NumDataError, and a
valid input is combined by a deterministic, order-independent equal-weight
combination, modelled as the arithmetic mean of the input scores. -/
def fuseVerificationScores (inputScores : ScoreSet) : Except ReturnCode ℚ :=
  if inputScores.length < 2 then .error .NumDataError
  else .ok (inputScores.sum / inputScores.length)

/-- Projection of a candidate list to its identity labels. -/
def identitiesOf (l : CandidateList) : List Nat := l.map Candidate.identity

/-- First-occurrence deduplication of identity labels, used to form the union
of identities across input candidate lists. -/
def dedupIds : List Nat → List Nat
  | [] => []
  | a :: r => a :: (dedupIds r).filter (fun b => b != a)

/-- Modelled from the spec: the union of identities across all input candidate
lists (spec section 4.5), in order of first appearance. -/
def unionIds (ls : List CandidateList) : List Nat :=
  dedupIds ((ls.map identitiesOf).flatten)

/-- Input lists that contain the identity a. -/
def listsContaining (ls : List CandidateList) (a : Nat) : List CandidateList :=
  ls.filter (fun l => decide (a ∈ identitiesOf l))

/-- Score contributed for identity a by one candidate list: the score of the
first candidate carrying that identity (0 when the identity is absent; fusion
only consults lists that contain the identity). -/
def scoreFor : CandidateList → Nat → ℚ
  | [], _ => 0
  | c :: r, a => if c.identity = a then c.score else scoreFor r a

/-- Modelled from the spec: an identity appearing in m of the K lists has its
m available scores combined by the same equal-weight discipline as section
4.1 — the arithmetic mean over the lists that contain it; lists that do not
contain it are treated as absent, not as zero (spec section 4.5). -/
def fusedScoreFor (ls : List CandidateList) (a : Nat) : ℚ :=
  ((listsContaining ls a).map (fun l => scoreFor l a)).sum /
    ((listsContaining ls a).length : ℚ)

/-- Rank (0-based position of the first occurrence) of an identity inside a
list of identity labels. -/
def rankIn : List Nat → Nat → Nat
  | [], _ => 0
  | b :: r, a => if a = b then 0 else rankIn r a + 1

/-- Minimum of a list of naturals (0 for the empty list). -/
def minOf : List Nat → Nat
  | [] => 0
  | [x] => x
  | x :: y :: r => min x (minOf (y :: r))

/-- Modelled from the spec: the tie-break rank of an identity is its smallest
original rank across the contributing lists (spec section 4.5). -/
def bestRankFor (ls : List CandidateList) (a : Nat) : Nat :=
  minOf ((listsContaining ls a).map (fun l => rankIn (identitiesOf l) a))

/-- Modelled from the spec: the fused ranking order on identities — fused
score descending, then smallest original rank ascending, then identity
ascending, for determinism (spec section 4.5). -/
def keyRel (ls : List CandidateList) (a b : Nat) : Prop :=
  fusedScoreFor ls b < fusedScoreFor ls a ∨
    (fusedScoreFor ls a = fusedScoreFor ls b ∧
      (bestRankFor ls a < bestRankFor ls b ∨
        (bestRankFor ls a = bestRankFor ls b ∧ a ≤ b)))

instance keyRelDecidable (ls : List CandidateList) : DecidableRel (keyRel ls) :=
  fun _ _ => by unfold keyRel; infer_instance

instance keyRelTotal (ls : List CandidateList) : IsTotal Nat (keyRel ls) := by
  constructor
  intro a b
  unfold keyRel
  rcases lt_trichotomy (fusedScoreFor ls a) (fusedScoreFor ls b) with h | h | h
  · exact Or.inr (Or.inl h)
  · rcases Nat.lt_trichotomy (bestRankFor ls a) (bestRankFor ls b) with hr | hr | hr
    · exact Or.inl (Or.inr ⟨h, Or.inl hr⟩)
    · rcases Nat.le_total a b with hab | hab
      · exact Or.inl (Or.inr ⟨h, Or.inr ⟨hr, hab⟩⟩)
      · exact Or.inr (Or.inr ⟨h.symm, Or.inr ⟨hr.symm, hab⟩⟩)
    · exact Or.inr (Or.inr ⟨h.symm, Or.inl hr⟩)
  · exact Or.inl (Or.inl h)

instance keyRelTrans (ls : List CandidateList) : IsTrans Nat (keyRel ls) := by
  constructor
  intro a b c hab hbc
  unfold keyRel at hab hbc ⊢
  rcases hab with h1 | ⟨e1, h1⟩
  · rcases hbc with h2 | ⟨e2, h2⟩
    · exact Or.inl (lt_trans h2 h1)
    · exact Or.inl (e2 ▸ h1)
  · rcases hbc with h2 | ⟨e2, h2⟩
    · exact Or.inl (e1 ▸ h2)
    · refine Or.inr ⟨e1.trans e2, ?_⟩
      rcases h1 with h1 | ⟨h1, h1'⟩ <;> rcases h2 with h2 | ⟨h2, h2'⟩ <;> omega

instance keyRelAntisymm (ls : List CandidateList) : IsAntisymm Nat (keyRel ls) := by
  constructor
  intro a b hab hba
  unfold keyRel at hab hba
  rcases hab with h1 | ⟨e1, h1⟩
  · rcases hba with h2 | ⟨e2, h2⟩
    · exact absurd h2 (lt_asymm h1)
    · exact absurd h1 (e2 ▸ lt_irrefl _)
  · rcases hba with h2 | ⟨e2, h2⟩
    · exact absurd h2 (e1 ▸ lt_irrefl _)
    · rcases h1 with h1 | ⟨h1, h1'⟩ <;> rcases h2 with h2 | ⟨h2, h2'⟩ <;> omega

/-- Successful output of candidate-list fusion: the identity union ranked by
keyRel and capped at twice the input length, each fused identity paired with
its combined score (spec section 4.5). -/
def fuseOutput (ls : List CandidateList) (L : Nat) : CandidateList :=
  ((List.insertionSort (keyRel ls) (unionIds ls)).take (2 * L)).map
    (fun a => Candidate.mk a (fusedScoreFor ls a))

/-- Modelled from the spec: the source declares fuseCandidateLists only as a
pure virtual method (lines 246-249).  Fewer than two input lists fail with the
unsupported-input-count code NumDataError; input lists of unequal lengths fail
with NonCongruentVectors and produce no output; otherwise the union of
identities is ranked by fused score (descending), smallest original rank and
identity, and truncated to at most 2L entries (spec sections 4.4-4.5). -/
def fuseCandidateLists (inputLists : List CandidateList) :
    Except ReturnCode CandidateList :=
  if inputLists.length < 2 then .error .NumDataError
  else if ∀ l ∈ inputLists, l.length = (inputLists.headD []).length then
    .ok (fuseOutput inputLists (inputLists.headD []).length)
  else .error .NonCongruentVectors

/-- Modelled from the spec: the relative order of candidates in a search
result — score strictly descending, ties broken by ascending identity for
determinism (spec section 4.4). -/
def candRel (a b : Candidate) : Prop :=
  b.score < a.score ∨ (a.score = b.score ∧ a.identity ≤ b.identity)

instance candRelDecidable : DecidableRel candRel :=
  fun _ _ => by unfold candRel; infer_instance

instance candRelTotal : IsTotal Candidate candRel := by
  constructor
  intro a b
  unfold candRel
  rcases lt_trichotomy a.score b.score with h | h | h
  · exact Or.inr (Or.inl h)
  · rcases Nat.le_total a.identity b.identity with hab | hab
    · exact Or.inl (Or.inr ⟨h, hab⟩)
    · exact Or.inr (Or.inr ⟨h.symm, hab⟩)
  · exact Or.inl (Or.inl h)

instance candRelTrans : IsTrans Candidate candRel := by
  constructor
  intro a b c hab hbc
  unfold candRel at hab hbc ⊢
  rcases hab with h1 | ⟨e1, h1⟩
  · rcases hbc with h2 | ⟨e2, h2⟩
    · exact Or.inl (lt_trans h2 h1)
    · exact Or.inl (e2 ▸ h1)
  · rcases hbc with h2 | ⟨e2, h2⟩
    · exact Or.inl (e1 ▸ h2)
    · exact Or.inr ⟨e1.trans e2, le_trans h1 h2⟩

/-- Modelled from the spec: the gallery index built by createGallery — the
enrolled (template, identity) pairs, identities positionally associated with
templates (spec sections 3 and 4.4). -/
structure Gallery where
  entries : List (Template × Nat)
deriving DecidableEq

/-- Modelled from the spec: createGallery is declared pure virtual in the
source (lines 364-367).  Per spec section 4.4 it bulk-loads the positionally
associated (template, identity) pairs, and fails with NonCongruentVectors,
building nothing, when the two input vectors have different lengths. -/
def createGallery (templates : List Template) (ids : List Nat) :
    Except ReturnCode Gallery :=
  if templates.length = ids.length then .ok ⟨templates.zip ids⟩
  else .error .NonCongruentVectors

/-- Modelled from the spec: search is declared pure virtual in the source
(lines 382-385).  Per spec section 4.4 it scores every gallery entry against
the probe with the loaded scheme's similarity function (vendor-defined, taken
here as a parameter), orders by score descending with ties broken by
ascending identity, and populates exactly min(M, N) candidates, where M is
the caller-preallocated output size and N the gallery size. -/
def search (sim : Template → Template → ℚ) (g : Gallery) (probe : Template)
    (M : Nat) : CandidateList :=
  (List.insertionSort candRel
    (g.entries.map (fun e => Candidate.mk e.2 (sim probe e.1)))).take M

/-- Embedding of enum class TemplateFuserInterface::Action (lines 278-282). -/
inductive Action
  | Fuse
  | Verify
  | Identify
deriving DecidableEq

/-- Modelled from the spec: the lifecycle states of the identification side of
a TemplateFuserInterface instance (spec section 4.4): Uninitialized; Loaded
after a completed initialize call (split on whether the action was Identify);
Searchable once createGallery has succeeded. -/
inductive EngState
  | uninit
  | loadedIdentify
  | loadedOther
  | searchable (g : Gallery)
deriving DecidableEq

/-- Calls the harness can issue against one TemplateFuserInterface instance in
the identification workflow. -/
inductive Op
  | initOp (a : Action)
  | createGalleryOp (templates : List Template) (ids : List Nat)
  | searchOp (probe : Template) (M : Nat)
deriving DecidableEq

/-- Modelled from the spec: createGallery as a state transition.  In the
Loaded-for-Identify state it builds the gallery (or reports the failure of
createGallery, leaving the state unchanged); called out of order — before
initialize(Identify), or again after the gallery is built — it fails with an
ordering-violation code and leaves the state unchanged (spec section 4.4). -/
def createGalleryStep (s : EngState) (templates : List Template)
    (ids : List Nat) : EngState × ReturnCode :=
  match s with
  | .loadedIdentify =>
    match createGallery templates ids with
    | .ok g => (.searchable g, .Success)
    | .error c => (.loadedIdentify, c)
  | _ => (s, .InputLocationError)

/-- Modelled from the spec: the status a search call reports in each lifecycle
state (spec section 4.4): an ordering-violation code before Searchable
(NotImplemented when initialization was skipped, InputLocationError when the
gallery has not been built), Success once Searchable. -/
def searchStatusIn (s : EngState) : ReturnCode :=
  match s with
  | .uninit => .NotImplemented
  | .loadedIdentify => .InputLocationError
  | .loadedOther => .InputLocationError
  | .searchable _ => .Success

/-- One step of the lifecycle state machine: initialize(a) loads the scheme
for action a; createGallery transitions via createGalleryStep; search is
read-only and never changes the state. -/
def step (s : EngState) (op : Op) : EngState :=
  match op with
  | .initOp .Identify => .loadedIdentify
  | .initOp _ => .loadedOther
  | .createGalleryOp templates ids => (createGalleryStep s templates ids).1
  | .searchOp _ _ => s

/-- Run a sequence of harness calls from a starting state. -/
def runOps (s : EngState) : List Op → EngState
  | [] => s
  | op :: rest => runOps (step s op) rest

/-- Concrete input for the truncation analysis of candidate-list fusion:
three candidate lists of length 3 whose only shared identity is 0, with 0
carrying the lowest fused score of the whole identity union. -/
def exLists : List CandidateList :=
  [[Candidate.mk 1 9, Candidate.mk 2 9, Candidate.mk 0 1],
   [Candidate.mk 3 9, Candidate.mk 4 9, Candidate.mk 0 1],
   [Candidate.mk 5 9, Candidate.mk 6 9, Candidate.mk 0 1]]

end FOFRA

namespace FOFRA

/-- Membership in the deduplicated identity list is membership in the
original list. -/
theorem mem_dedupIds {a : Nat} : ∀ {l : List Nat}, a ∈ dedupIds l ↔ a ∈ l
  | [] => by simp [dedupIds]
  | x :: r => by
    by_cases hax : a = x
    · subst hax; simp [dedupIds]
    · simp [dedupIds, List.mem_filter, hax, bne_iff_ne,
        mem_dedupIds (l := r)]

/-- Deduplicated identity lists contain no duplicates. -/
theorem nodup_dedupIds : ∀ l : List Nat, (dedupIds l).Nodup
  | [] => by simp [dedupIds]
  | x :: r => by
    simp only [dedupIds, List.nodup_cons]
    refine ⟨?_, (nodup_dedupIds r).filter _⟩
    simp [List.mem_filter]

/-- A duplicate-free list whose members all occur in u is no longer than the
deduplication of u. -/
theorem length_le_length_dedupIds {l₀ u : List Nat} (hnd : l₀.Nodup)
    (hsub : ∀ x ∈ l₀, x ∈ u) : l₀.length ≤ (dedupIds u).length := by
  rw [← List.toFinset_card_of_nodup hnd,
    ← List.toFinset_card_of_nodup (nodup_dedupIds u)]
  apply Finset.card_le_card
  intro a ha
  rw [List.mem_toFinset] at ha
  rw [List.mem_toFinset]
  exact mem_dedupIds.2 (hsub a ha)

/-- With at least two input lists, all of length L, candidate-list fusion
takes the successful branch. -/
theorem fuseCandidateLists_ok {ls : List CandidateList} {L : Nat}
    (hK : 2 ≤ ls.length) (hlen : ∀ l ∈ ls, l.length = L) :
    fuseCandidateLists ls = .ok (fuseOutput ls L) := by
  have hhead : (ls.headD []).length = L := by
    cases ls with
    | nil => simp at hK
    | cons h t => exact hlen h (List.mem_cons_self h t)
  unfold fuseCandidateLists
  rw [if_neg (by omega), if_pos (fun l hl => by rw [hhead]; exact hlen l hl), hhead]

/-- C2: for K ≥ 2 equal-length input candidate lists (each a duplicate-free
ranking of length L), fusion succeeds and the fused list length x satisfies
L ≤ x ≤ 2L. -/
theorem fuseCandidateLists_length_bounds (ls : List CandidateList) (L : Nat)
    (hK : 2 ≤ ls.length) (hlen : ∀ l ∈ ls, l.length = L)
    (hnd : ∀ l ∈ ls, (identitiesOf l).Nodup) :
    ∃ out, fuseCandidateLists ls = .ok out ∧
      L ≤ out.length ∧ out.length ≤ 2 * L := by
  refine ⟨fuseOutput ls L, fuseCandidateLists_ok hK hlen, ?_⟩
  have hlenOut : (fuseOutput ls L).length = min (2 * L) (unionIds ls).length := by
    unfold fuseOutput
    rw [List.length_map, List.length_take, (List.perm_insertionSort _ _).length_eq]
  obtain ⟨l₀, rest, rfl⟩ : ∃ l₀ rest, ls = l₀ :: rest := by
    cases ls with
    | nil => simp at hK
    | cons a t => exact ⟨a, t, rfl⟩
  have hmem : l₀ ∈ l₀ :: rest := List.mem_cons_self l₀ rest
  have hL : (identitiesOf l₀).length = L := by
    rw [identitiesOf, List.length_map]
    exact hlen l₀ hmem
  have hsub : ∀ x ∈ identitiesOf l₀, x ∈ ((l₀ :: rest).map identitiesOf).flatten := by
    intro x hx
    exact List.mem_flatten.2 ⟨identitiesOf l₀, List.mem_map_of_mem identitiesOf hmem, hx⟩
  have hu : L ≤ (unionIds (l₀ :: rest)).length := by
    rw [← hL]
    exact length_le_length_dedupIds (hnd l₀ hmem) hsub
  rw [hlenOut]
  omega

/-- Witness for C2 at two concrete singleton candidate lists. -/
theorem fuseCandidateLists_length_bounds_witness :
    ∃ out, fuseCandidateLists [[Candidate.mk 1 1], [Candidate.mk 2 2]] = .ok out ∧
      1 ≤ out.length ∧ out.length ≤ 2 * 1 :=
  fuseCandidateLists_length_bounds [[Candidate.mk 1 1], [Candidate.mk 2 2]] 1
    (by decide) (by decide) (by decide)

/-- C2 counterexample: two equal-length (L = 2) input lists can fuse to an
output shorter than L when a list repeats an identity: with both lists
carrying only the identity 7, the identity union is the single label 7 and
the fused output has length 1 < 2. -/
theorem fuse_length_below_L :
    ([Candidate.mk 7 1, Candidate.mk 7 2] : CandidateList).length = 2 ∧
      ([Candidate.mk 7 3, Candidate.mk 7 4] : CandidateList).length = 2 ∧
      (fuseCandidateLists [[Candidate.mk 7 1, Candidate.mk 7 2],
          [Candidate.mk 7 3, Candidate.mk 7 4]]).map List.length = .ok 1 :=
  ⟨rfl, rfl, rfl⟩

/-- C3: createGallery called with vectors of different lengths fails with
NonCongruentVectors and leaves the gallery state of the engine unchanged in
every lifecycle state, and fuseCandidateLists called on input lists of
unequal lengths fails with NonCongruentVectors, populating no output. -/
theorem noncongruent_inputs_rejected (templates : List Template) (ids : List Nat)
    (ls : List CandidateList) (l1 l2 : CandidateList)
    (hg : templates.length ≠ ids.length)
    (h1 : l1 ∈ ls) (h2 : l2 ∈ ls) (hne : l1.length ≠ l2.length) :
    createGallery templates ids = .error .NonCongruentVectors ∧
      (∀ s, (createGalleryStep s templates ids).1 = s) ∧
      fuseCandidateLists ls = .error .NonCongruentVectors := by
  have hcg : createGallery templates ids = .error .NonCongruentVectors := by
    unfold createGallery
    rw [if_neg hg]
  refine ⟨hcg, ?_, ?_⟩
  · intro s
    cases s with
    | loadedIdentify => simp [createGalleryStep, hcg]
    | uninit => rfl
    | loadedOther => rfl
    | searchable g => rfl
  · have hK : 2 ≤ ls.length := by
      rcases ls with _ | ⟨a, _ | ⟨b, t⟩⟩
      · exact absurd h1 (List.not_mem_nil l1)
      · have e1 : l1 = a := by simpa using h1
        have e2 : l2 = a := by simpa using h2
        exact absurd (congrArg List.length (e1.trans e2.symm)) hne
      · simp only [List.length_cons]
        omega
    have hnall : ¬ ∀ l ∈ ls, l.length = (ls.headD []).length := by
      intro hall
      exact hne ((hall l1 h1).trans (hall l2 h2).symm)
    unfold fuseCandidateLists
    rw [if_neg (by omega), if_neg hnall]

/-- Witness for C3 at a concrete mismatched gallery input and a concrete pair
of unequal-length candidate lists. -/
theorem noncongruent_inputs_rejected_witness :
    createGallery [] [5] = .error .NonCongruentVectors ∧
      (∀ s, (createGalleryStep s [] [5]).1 = s) ∧
      fuseCandidateLists [[], [Candidate.mk 0 0]] = .error .NonCongruentVectors :=
  noncongruent_inputs_rejected [] [5] [[], [Candidate.mk 0 0]] [] [Candidate.mk 0 0]
    (by decide) (by decide) (by decide) (by decide)

/-- C1: for a gallery built by createGallery from N templates, a search with
a caller-preallocated output of size M populates exactly min(M, N) candidates,
ordered by score descending with ties broken by ascending identity
(the order candRel), for any similarity function of the loaded scheme. -/
theorem search_returns_min_sorted (sim : Template → Template → ℚ)
    (templates : List Template) (ids : List Nat) (g : Gallery)
    (probe : Template) (M : Nat)
    (h : createGallery templates ids = .ok g) :
    (search sim g probe M).length = min M templates.length ∧
      (search sim g probe M).Pairwise candRel := by
  unfold createGallery at h
  split at h
  case isFalse => exact Except.noConfusion h
  case isTrue hq =>
    cases h
    constructor
    · unfold search
      rw [List.length_take, (List.perm_insertionSort _ _).length_eq,
        List.length_map, List.length_zip]
      omega
    · unfold search
      exact List.Pairwise.sublist (List.take_sublist _ _)
        (List.sorted_insertionSort candRel _)

/-- Witness for C1 at a concrete two-entry gallery, constant similarity and
output size 1. -/
theorem search_returns_min_sorted_witness :
    (search (fun _ _ => (0 : ℚ)) ⟨[([(1 : ℚ)], 7), ([(2 : ℚ)], 3)]⟩ [(5 : ℚ)] 1).length
        = min 1 2 ∧
      (search (fun _ _ => (0 : ℚ)) ⟨[([(1 : ℚ)], 7), ([(2 : ℚ)], 3)]⟩ [(5 : ℚ)] 1).Pairwise
        candRel := by
  have h := search_returns_min_sorted (fun _ _ => (0 : ℚ)) [[(1 : ℚ)], [(2 : ℚ)]]
    [7, 3] ⟨[([(1 : ℚ)], 7), ([(2 : ℚ)], 3)]⟩ [(5 : ℚ)] 1 (by rfl)
  simpa using h

/-- Reaching the Searchable state from a starting state requires that either
the start already was Searchable, or the start was Loaded-for-Identify and the
trace contains a createGallery call, or the trace contains an
initialize(Identify) call followed later by a createGallery call. -/
theorem runOps_searchable_requires {ops : List Op} :
    ∀ (s : EngState) (g : Gallery), runOps s ops = .searchable g →
      (∃ g0, s = .searchable g0) ∨
      (s = .loadedIdentify ∧ ∃ ts ids, Op.createGalleryOp ts ids ∈ ops) ∨
      (∃ ts ids, [Op.initOp .Identify, Op.createGalleryOp ts ids].Sublist ops) := by
  induction ops with
  | nil =>
    intro s g h
    exact Or.inl ⟨g, h⟩
  | cons op rest ih =>
    intro s g h
    rcases ih (step s op) g h with ⟨g0, hg0⟩ | ⟨hli, ts, ids, hmem⟩ | ⟨ts, ids, hsub⟩
    · cases op with
      | initOp a => cases a <;> simp [step] at hg0
      | searchOp p M => exact Or.inl ⟨g0, by simpa [step] using hg0⟩
      | createGalleryOp ts ids =>
        cases s with
        | searchable g1 => exact Or.inl ⟨g1, rfl⟩
        | loadedIdentify =>
          exact Or.inr (Or.inl ⟨rfl, ts, ids, List.mem_cons_self _ _⟩)
        | uninit => simp [step, createGalleryStep] at hg0
        | loadedOther => simp [step, createGalleryStep] at hg0
    · cases op with
      | initOp a =>
        cases a with
        | Identify =>
          exact Or.inr (Or.inr ⟨ts, ids,
            List.Sublist.cons₂ _ (List.singleton_sublist.2 hmem)⟩)
        | Fuse => simp [step] at hli
        | Verify => simp [step] at hli
      | searchOp p M =>
        have hs : s = EngState.loadedIdentify := by simpa [step] using hli
        exact Or.inr (Or.inl ⟨hs, ts, ids, List.mem_cons_of_mem _ hmem⟩)
      | createGalleryOp ts2 ids2 =>
        cases s with
        | loadedIdentify =>
          exact Or.inr (Or.inl ⟨rfl, ts, ids, List.mem_cons_of_mem _ hmem⟩)
        | uninit => simp [step, createGalleryStep] at hli
        | loadedOther => simp [step, createGalleryStep] at hli
        | searchable g1 => simp [step, createGalleryStep] at hli
    · exact Or.inr (Or.inr ⟨ts, ids, hsub.cons op⟩)

/-- C8: starting from the uninitialized state, a search call reports Success
only if the preceding trace contains a completed initialize(Identify) call
followed, later in the trace, by a createGallery call; any search issued
before that reports a non-Success ordering-violation status. -/
theorem search_success_requires_ordered_lifecycle (ops : List Op)
    (h : searchStatusIn (runOps .uninit ops) = ReturnCode.Success) :
    ∃ ts ids, [Op.initOp .Identify, Op.createGalleryOp ts ids].Sublist ops := by
  cases hst : runOps EngState.uninit ops with
  | uninit => rw [hst] at h; exact absurd h (by decide)
  | loadedIdentify => rw [hst] at h; exact absurd h (by decide)
  | loadedOther => rw [hst] at h; exact absurd h (by decide)
  | searchable g =>
    rcases runOps_searchable_requires EngState.uninit g hst with
      ⟨g0, hg0⟩ | ⟨hli, _⟩ | hsub
    · exact EngState.noConfusion hg0
    · exact EngState.noConfusion hli
    · exact hsub

/-- Witness for C8 at the concrete well-ordered trace initialize(Identify)
then createGallery on a one-entry gallery. -/
theorem search_success_requires_ordered_lifecycle_witness :
    ∃ ts ids, [Op.initOp .Identify, Op.createGalleryOp ts ids].Sublist
      [Op.initOp .Identify, Op.createGalleryOp [[(1 : ℚ)]] [7]] :=
  search_success_requires_ordered_lifecycle
    [Op.initOp .Identify, Op.createGalleryOp [[(1 : ℚ)]] [7]] (by rfl)

/-- C5: fuseVerificationScores is deterministic and order-independent with
respect to algorithm identity: it is a pure function of its input (so two
calls on the same ScoreSet give the identical fused score), and permuting the
same K ≥ 2 scores does not change the fused score. -/
theorem fuseVerificationScores_perm_invariant (s t : ScoreSet)
    (hs : 2 ≤ s.length) (hperm : s.Perm t) :
    fuseVerificationScores s = fuseVerificationScores t := by
  unfold fuseVerificationScores
  rw [hperm.length_eq, hperm.sum_eq]

/-- Witness for C5 at the concrete permuted pair [1, 2] and [2, 1]. -/
theorem fuseVerificationScores_perm_invariant_witness :
    fuseVerificationScores [(1 : ℚ), 2] = fuseVerificationScores [(2 : ℚ), 1] :=
  fuseVerificationScores_perm_invariant [(1 : ℚ), 2] [(2 : ℚ), 1]
    (by decide) (List.Perm.swap 2 1 [])

/-- C7: a call to fuseVerificationScores with fewer than two input scores
fails with the dedicated insufficient-input code NumDataError, which is a
different code from NonCongruentVectors (the latter is reserved for
mismatched-length collections). -/
theorem fuseVerificationScores_too_few (s : ScoreSet) (h : s.length < 2) :
    fuseVerificationScores s = .error .NumDataError ∧
      ReturnCode.NumDataError ≠ ReturnCode.NonCongruentVectors := by
  refine ⟨?_, by decide⟩
  unfold fuseVerificationScores
  rw [if_pos h]

/-- Witness for C7 at the concrete single-element input [3]. -/
theorem fuseVerificationScores_too_few_witness :
    fuseVerificationScores [(3 : ℚ)] = .error .NumDataError ∧
      ReturnCode.NumDataError ≠ ReturnCode.NonCongruentVectors :=
  fuseVerificationScores_too_few [(3 : ℚ)] (by decide)

/-- In a candidate list with duplicate-free identities, the score recorded
for the identity of the i-th candidate is that candidate's score. -/
theorem scoreFor_getElem : ∀ (cs : CandidateList), (identitiesOf cs).Nodup →
    ∀ (i : Nat) (hi : i < cs.length), scoreFor cs cs[i].identity = cs[i].score
  | [], _, i, hi => absurd hi (by simp)
  | x :: r, _, 0, _ => by simp [scoreFor]
  | x :: r, hnd, (i + 1), hi => by
    simp only [identitiesOf, List.map_cons, List.nodup_cons] at hnd
    have hir : i < r.length := by simpa using hi
    have hx : x.identity ≠ r[i].identity := by
      intro he
      exact hnd.1 (he ▸ List.mem_map_of_mem Candidate.identity (r.getElem_mem hir))
    rw [List.getElem_cons_succ]
    rw [scoreFor, if_neg hx]
    exact scoreFor_getElem r hnd.2 i hir

/-- In a duplicate-free list of identities, the rank of the i-th identity
is i. -/
theorem rankIn_getElem : ∀ (l : List Nat), l.Nodup →
    ∀ (i : Nat) (hi : i < l.length), rankIn l l[i] = i
  | [], _, i, hi => absurd hi (by simp)
  | x :: r, _, 0, _ => by simp [rankIn]
  | x :: r, hnd, (i + 1), hi => by
    rw [List.nodup_cons] at hnd
    have hir : i < r.length := by simpa using hi
    have hx : r[i] ≠ x := by
      intro he
      exact hnd.1 (he ▸ r.getElem_mem hir)
    rw [List.getElem_cons_succ]
    rw [rankIn, if_neg hx]
    rw [rankIn_getElem r hnd.2 i hir]

/-- Fusing a list with itself: both copies contain every identity of the
list. -/
theorem listsContaining_pair {cs : CandidateList} {a : Nat}
    (ha : a ∈ identitiesOf cs) : listsContaining [cs, cs] a = [cs, cs] := by
  simp [listsContaining, List.filter, ha]

/-- Fusing a list with itself leaves every contained identity's combined
score equal to its single-list score. -/
theorem fusedScoreFor_pair {cs : CandidateList} {a : Nat}
    (ha : a ∈ identitiesOf cs) : fusedScoreFor [cs, cs] a = scoreFor cs a := by
  unfold fusedScoreFor
  rw [listsContaining_pair ha]
  simp only [List.map_cons, List.map_nil, List.sum_cons, List.sum_nil,
    List.length_cons, List.length_nil]
  push_cast
  ring

/-- Fusing a list with itself leaves every contained identity's tie-break
rank equal to its rank in the list. -/
theorem bestRankFor_pair {cs : CandidateList} {a : Nat}
    (ha : a ∈ identitiesOf cs) :
    bestRankFor [cs, cs] a = rankIn (identitiesOf cs) a := by
  unfold bestRankFor
  rw [listsContaining_pair ha]
  simp [minOf]

/-- The identity sequence of a duplicate-free candidate list that is already
ranked by non-increasing score is sorted under the fused ranking order of
fusing the list with itself. -/
theorem pairwise_keyRel_self {cs : CandidateList}
    (hnd : (identitiesOf cs).Nodup)
    (hsorted : cs.Pairwise (fun a b => b.score ≤ a.score)) :
    (identitiesOf cs).Pairwise (keyRel [cs, cs]) := by
  rw [List.pairwise_iff_getElem] at hsorted ⊢
  intro i j hi hj hij
  have hci : i < cs.length := by simpa [identitiesOf] using hi
  have hcj : j < cs.length := by simpa [identitiesOf] using hj
  simp only [identitiesOf, List.getElem_map]
  have hmi : cs[i].identity ∈ identitiesOf cs :=
    List.mem_map_of_mem Candidate.identity (cs.getElem_mem hci)
  have hmj : cs[j].identity ∈ identitiesOf cs :=
    List.mem_map_of_mem Candidate.identity (cs.getElem_mem hcj)
  have hfi : fusedScoreFor [cs, cs] cs[i].identity = cs[i].score :=
    (fusedScoreFor_pair hmi).trans (scoreFor_getElem cs hnd i hci)
  have hfj : fusedScoreFor [cs, cs] cs[j].identity = cs[j].score :=
    (fusedScoreFor_pair hmj).trans (scoreFor_getElem cs hnd j hcj)
  have hri : bestRankFor [cs, cs] cs[i].identity = i := by
    rw [bestRankFor_pair hmi]
    have hr := rankIn_getElem (identitiesOf cs) hnd i hi
    simpa [identitiesOf, List.getElem_map] using hr
  have hrj : bestRankFor [cs, cs] cs[j].identity = j := by
    rw [bestRankFor_pair hmj]
    have hr := rankIn_getElem (identitiesOf cs) hnd j hj
    simpa [identitiesOf, List.getElem_map] using hr
  have hsc : cs[j].score ≤ cs[i].score := hsorted i j hci hcj hij
  unfold keyRel
  rw [hfi, hfj, hri, hrj]
  rcases lt_or_eq_of_le hsc with h | h
  · exact Or.inl h
  · exact Or.inr ⟨h.symm, Or.inl hij⟩

/-- Deduplicating a duplicate-free list appended to itself permutes back to
the list. -/
theorem dedupIds_append_self_perm {l : List Nat} (hnd : l.Nodup) :
    (dedupIds (l ++ l)).Perm l := by
  refine (List.perm_ext_iff_of_nodup (nodup_dedupIds _) hnd).2 ?_
  intro a
  rw [mem_dedupIds, List.mem_append]
  tauto

/-- The identity union of a pair of identical lists is the deduplication of
the doubled identity sequence. -/
theorem unionIds_pair (cs : CandidateList) :
    unionIds [cs, cs] = dedupIds (identitiesOf cs ++ identitiesOf cs) := by
  simp [unionIds]

/-- C6: fusing a candidate list with an identical copy of itself (K = 2)
reproduces the original ranking order of identities, for any duplicate-free
list ranked by non-increasing score. -/
theorem fuse_self_preserves_order (cs : CandidateList)
    (hnd : (identitiesOf cs).Nodup)
    (hsorted : cs.Pairwise (fun a b => b.score ≤ a.score)) :
    (fuseCandidateLists [cs, cs]).map identitiesOf = .ok (identitiesOf cs) := by
  have hok : fuseCandidateLists [cs, cs] = .ok (fuseOutput [cs, cs] cs.length) := by
    refine fuseCandidateLists_ok (by simp) ?_
    intro l hl
    obtain rfl : l = cs := by simpa using hl
    rfl
  rw [hok]
  have hperm : (List.insertionSort (keyRel [cs, cs]) (unionIds [cs, cs])).Perm
      (identitiesOf cs) := by
    refine (List.perm_insertionSort _ _).trans ?_
    rw [unionIds_pair]
    exact dedupIds_append_self_perm hnd
  have heq : List.insertionSort (keyRel [cs, cs]) (unionIds [cs, cs])
      = identitiesOf cs :=
    List.eq_of_perm_of_sorted hperm (List.sorted_insertionSort _ _)
      (pairwise_keyRel_self hnd hsorted)
  have htake : (List.insertionSort (keyRel [cs, cs]) (unionIds [cs, cs])).take
      (2 * cs.length) = identitiesOf cs := by
    rw [heq]
    refine List.take_of_length_le ?_
    rw [identitiesOf, List.length_map]
    omega
  unfold fuseOutput
  rw [htake]
  simp [identitiesOf, Except.map, List.map_map, Function.comp_def]

/-- Witness for C6 at the concrete ranked list [(1, 5), (2, 3)]. -/
theorem fuse_self_preserves_order_witness :
    (fuseCandidateLists [[Candidate.mk 1 5, Candidate.mk 2 3],
        [Candidate.mk 1 5, Candidate.mk 2 3]]).map identitiesOf
      = .ok (identitiesOf [Candidate.mk 1 5, Candidate.mk 2 3]) := by
  refine fuse_self_preserves_order [Candidate.mk 1 5, Candidate.mk 2 3]
    (by decide) ?_
  refine List.Pairwise.cons ?_ (List.pairwise_singleton _ _)
  intro b hb
  obtain rfl : b = Candidate.mk 2 3 := by simpa using hb
  norm_num

/-- C6 counterexample: fusing a candidate list that is not ranked by
descending score with an identical copy of itself re-sorts it: the list
[(1, 3), (2, 5)] has identity order [1, 2], but the self-fused output ranks
identity 2 first. -/
theorem fuse_self_reorders_unsorted :
    identitiesOf [Candidate.mk 1 3, Candidate.mk 2 5] = [1, 2] ∧
      (fuseCandidateLists [[Candidate.mk 1 3, Candidate.mk 2 5],
          [Candidate.mk 1 3, Candidate.mk 2 5]]).map identitiesOf
        = .ok [2, 1] := by
  constructor
  · rfl
  · have hok : fuseCandidateLists [[Candidate.mk 1 3, Candidate.mk 2 5],
        [Candidate.mk 1 3, Candidate.mk 2 5]]
        = .ok (fuseOutput [[Candidate.mk 1 3, Candidate.mk 2 5],
            [Candidate.mk 1 3, Candidate.mk 2 5]] 2) :=
      fuseCandidateLists_ok (by decide) (by decide)
    rw [hok]
    have hu : unionIds [[Candidate.mk 1 3, Candidate.mk 2 5],
        [Candidate.mk 1 3, Candidate.mk 2 5]] = [1, 2] := by decide
    have hla : listsContaining [[Candidate.mk 1 3, Candidate.mk 2 5],
        [Candidate.mk 1 3, Candidate.mk 2 5]] 1
        = [[Candidate.mk 1 3, Candidate.mk 2 5],
           [Candidate.mk 1 3, Candidate.mk 2 5]] := by decide
    have hlb : listsContaining [[Candidate.mk 1 3, Candidate.mk 2 5],
        [Candidate.mk 1 3, Candidate.mk 2 5]] 2
        = [[Candidate.mk 1 3, Candidate.mk 2 5],
           [Candidate.mk 1 3, Candidate.mk 2 5]] := by decide
    have hfa : fusedScoreFor [[Candidate.mk 1 3, Candidate.mk 2 5],
        [Candidate.mk 1 3, Candidate.mk 2 5]] 1 = 3 := by
      rw [fusedScoreFor, hla]
      norm_num [scoreFor]
    have hfb : fusedScoreFor [[Candidate.mk 1 3, Candidate.mk 2 5],
        [Candidate.mk 1 3, Candidate.mk 2 5]] 2 = 5 := by
      rw [fusedScoreFor, hlb]
      norm_num [scoreFor]
    have hsort : List.insertionSort (keyRel [[Candidate.mk 1 3, Candidate.mk 2 5],
        [Candidate.mk 1 3, Candidate.mk 2 5]]) [1, 2] = [2, 1] := by
      norm_num [List.insertionSort, List.orderedInsert, keyRel, hfa, hfb]
    unfold fuseOutput
    rw [hu, hsort]
    rfl

/-- C4 (amended): for K ≥ 2 equal-length input candidate lists, an identity
present in every input list appears exactly once in the fused output,
provided the identity union does not exceed the 2L output cap (in particular
this always holds for K = 2); when the union exceeds 2L, the cap can
truncate such an identity away. -/
theorem fuse_unanimous_identity_once (ls : List CandidateList) (L a : Nat)
    (hK : 2 ≤ ls.length) (hlen : ∀ l ∈ ls, l.length = L)
    (hsmall : (unionIds ls).length ≤ 2 * L)
    (ha : ∀ l ∈ ls, a ∈ identitiesOf l) :
    ∃ out, fuseCandidateLists ls = .ok out ∧
      out.countP (fun cand => cand.identity == a) = 1 := by
  refine ⟨fuseOutput ls L, fuseCandidateLists_ok hK hlen, ?_⟩
  unfold fuseOutput
  rw [List.take_of_length_le
    (by rw [(List.perm_insertionSort _ _).length_eq]; exact hsmall)]
  rw [List.countP_map]
  have hcomp : ((fun cand => cand.identity == a) ∘
      fun x => Candidate.mk x (fusedScoreFor ls x)) = fun x => x == a := rfl
  rw [hcomp, ← List.count_eq_countP, (List.perm_insertionSort _ _).count_eq]
  refine List.count_eq_one_of_mem (nodup_dedupIds _) ?_
  rcases ls with _ | ⟨l₀, rest⟩
  · simp at hK
  · exact mem_dedupIds.2 (List.mem_flatten.2 ⟨identitiesOf l₀,
      List.mem_map_of_mem identitiesOf (List.mem_cons_self _ _),
      ha l₀ (List.mem_cons_self _ _)⟩)

/-- Witness for the amended C4 at two concrete singleton lists sharing the
identity 0. -/
theorem fuse_unanimous_identity_once_witness :
    ∃ out, fuseCandidateLists [[Candidate.mk 0 1], [Candidate.mk 0 2]] = .ok out ∧
      out.countP (fun cand => cand.identity == 0) = 1 :=
  fuse_unanimous_identity_once [[Candidate.mk 0 1], [Candidate.mk 0 2]] 1 0
    (by decide) (by decide) (by decide) (by decide)

/-- C4 counterexample: on the three equal-length (L = 3) lists of exLists,
identity 0 occurs in every input list, fusion succeeds, and yet identity 0
appears zero times — not exactly once — in the fused output, because the
union of identities (7 labels) exceeds the 2L = 6 cap and identity 0 carries
the lowest fused score. -/
theorem fuse_drops_unanimous_identity :
    exLists.all (fun l => (identitiesOf l).contains 0) = true ∧
      (fuseCandidateLists exLists).map
        (fun out => out.countP (fun cand => cand.identity == 0)) = .ok 0 := by
  constructor
  · decide
  · have hok : fuseCandidateLists exLists = .ok (fuseOutput exLists 3) :=
      fuseCandidateLists_ok (by decide) (by decide)
    rw [hok]
    have hu : unionIds exLists = [1, 2, 0, 3, 4, 5, 6] := by decide
    have hl0 : listsContaining exLists 0 = exLists := by decide
    have hl1 : listsContaining exLists 1
        = [[Candidate.mk 1 9, Candidate.mk 2 9, Candidate.mk 0 1]] := by decide
    have hl2 : listsContaining exLists 2
        = [[Candidate.mk 1 9, Candidate.mk 2 9, Candidate.mk 0 1]] := by decide
    have hl3 : listsContaining exLists 3
        = [[Candidate.mk 3 9, Candidate.mk 4 9, Candidate.mk 0 1]] := by decide
    have hl4 : listsContaining exLists 4
        = [[Candidate.mk 3 9, Candidate.mk 4 9, Candidate.mk 0 1]] := by decide
    have hl5 : listsContaining exLists 5
        = [[Candidate.mk 5 9, Candidate.mk 6 9, Candidate.mk 0 1]] := by decide
    have hl6 : listsContaining exLists 6
        = [[Candidate.mk 5 9, Candidate.mk 6 9, Candidate.mk 0 1]] := by decide
    have hf0 : fusedScoreFor exLists 0 = 1 := by
      rw [fusedScoreFor, hl0]
      norm_num [exLists, scoreFor]
    have hf1 : fusedScoreFor exLists 1 = 9 := by
      rw [fusedScoreFor, hl1]
      norm_num [scoreFor]
    have hf2 : fusedScoreFor exLists 2 = 9 := by
      rw [fusedScoreFor, hl2]
      norm_num [scoreFor]
    have hf3 : fusedScoreFor exLists 3 = 9 := by
      rw [fusedScoreFor, hl3]
      norm_num [scoreFor]
    have hf4 : fusedScoreFor exLists 4 = 9 := by
      rw [fusedScoreFor, hl4]
      norm_num [scoreFor]
    have hf5 : fusedScoreFor exLists 5 = 9 := by
      rw [fusedScoreFor, hl5]
      norm_num [scoreFor]
    have hf6 : fusedScoreFor exLists 6 = 9 := by
      rw [fusedScoreFor, hl6]
      norm_num [scoreFor]
    have hr0 : bestRankFor exLists 0 = 2 := by decide
    have hr1 : bestRankFor exLists 1 = 0 := by decide
    have hr2 : bestRankFor exLists 2 = 1 := by decide
    have hr3 : bestRankFor exLists 3 = 0 := by decide
    have hr4 : bestRankFor exLists 4 = 1 := by decide
    have hr5 : bestRankFor exLists 5 = 0 := by decide
    have hr6 : bestRankFor exLists 6 = 1 := by decide
    have hsort : List.insertionSort (keyRel exLists) [1, 2, 0, 3, 4, 5, 6]
        = [1, 3, 5, 2, 4, 6, 0] := by
      norm_num [List.insertionSort, List.orderedInsert, keyRel,
        hf0, hf1, hf2, hf3, hf4, hf5, hf6, hr0, hr1, hr2, hr3, hr4, hr5, hr6]
    unfold fuseOutput
    rw [hu, hsort]
    rfl

/-- C9: a default-constructed ReturnStatus leaves the code field
uninitialized (modelled as none), so it is not guaranteed to carry Success;
only the two-argument constructor establishes a definite code. -/
theorem returnStatus_default_code_indeterminate :
    ReturnStatus.mkDefault.code = none ∧
      ReturnStatus.mkDefault.code ≠ some ReturnCode.Success ∧
      ∀ (c : ReturnCode) (i : String), (ReturnStatus.mkWith c i).code = some c :=
  ⟨rfl, by decide, fun _ _ => rfl⟩

/-- C10: a default-constructed Candidate has identity 0 and score 0.0;
identity 0 lies inside the uint32_t range of gallery identity labels, and a
caller-preallocated vector of M default candidates is exactly equal to a list
of M genuine identity-0, score-0 candidates. -/
theorem candidate_default_is_genuine_zero :
    Candidate.mkDefault.identity = 0 ∧ Candidate.mkDefault.score = 0 ∧
      Candidate.mkDefault.identity < uint32Bound ∧
      ∀ M : Nat, List.replicate M Candidate.mkDefault =
        List.replicate M (Candidate.mk 0 0) :=
  ⟨rfl, rfl, by decide, fun _ => rfl⟩

end FOFRA
